import Mathlib

/-!
# Verification of `torrent_compress_recovery` (archive-tools)

Shallow embedding of the gzip/bzip2 header codec, the candidate engine,
the torrent-metadata parser and the (spec-modelled) trailer verification
engine of the `torrent_compress_recovery` package, together with proofs
of the spec's testable properties.

Byte buffers are modelled as `List Nat`, each element standing for one
byte (well-formedness `BytesWF` asserts every element is `< 256`).
External effects (file reads, subprocess invocations, `hashlib`,
`zlib`/`gzip`/`bz2` C primitives) are modelled as explicit parameters.
-/

/-- A byte buffer: every element is a byte value. -/
def BytesWF (b : List Nat) : Prop := ∀ x ∈ b, x < 256

instance : DecidablePred BytesWF := fun b =>
  inferInstanceAs (Decidable (∀ x ∈ b, x < 256))

/-- Little-endian interpretation of a byte list, as in
`int.from_bytes(data, "little")`. -/
def fromBytesLE : List Nat → Nat
  | [] => 0
  | b :: rest => b + 256 * fromBytesLE rest

/-- `n.to_bytes(k, "little")`: the `k` little-endian bytes of `n`
(CPython raises `OverflowError` when `n ≥ 256^k`; theorems that rely on
exact agreement carry that bound as a hypothesis). -/
def toBytesLE : Nat → Nat → List Nat
  | 0, _ => []
  | k + 1, n => n % 256 :: toBytesLE k (n / 256)

/-- Helper for `findNul`: scan a list for the first `0`, reporting the
index offset by `i`. -/
def findNulAux : List Nat → Nat → Option Nat
  | [], _ => none
  | b :: rest, i => if b = 0 then some i else findNulAux rest (i + 1)

/-- `data.find(b"\x00", pos)`: absolute index of the first NUL byte at
index `≥ pos`, `none` standing for CPython's `-1`. -/
def findNul (data : List Nat) (pos : Nat) : Option Nat :=
  findNulAux (data.drop pos) pos

/-- `data[:i] + repl + data[j:]`, the slice-splice shape used throughout
`patch_gzip_header`. -/
def splice (data : List Nat) (i j : Nat) (repl : List Nat) : List Nat :=
  data.take i ++ repl ++ data.drop j

/-! ## Gzip header codec (`torrent_compress_recovery/gzip.py`) -/

/-- `GzipHeader` dataclass: mtime, OS byte, flag byte and the three
optional variable-length fields. -/
structure GzipHeader where
  mtime : Nat
  os : Nat
  flags : Nat
  extra : Option (List Nat) := none
  fname : Option (List Nat) := none
  fcomment : Option (List Nat) := none
deriving DecidableEq, Repr

/-- `data[pos:end], end+1` for a NUL-terminated field starting at `pos`,
`none` when no NUL terminator is found. -/
def parseCString (data : List Nat) (pos : Nat) : Option (List Nat × Nat) :=
  (findNul data pos).map (fun e => ((data.drop pos).take (e - pos), e + 1))

/-- `parse_gzip_header`, applied to the bytes of the file: reads the
first 256 bytes, checks magic `1f 8b` and method `8`, then parses the
optional FEXTRA / FNAME / FCOMMENT fields in order. -/
def parse_gzip_header (fileBytes : List Nat) : Option GzipHeader :=
  let data := fileBytes.take 256
  if data.length < 10 ∨ data.take 2 ≠ [31, 139] then none
  else if data.getD 2 0 ≠ 8 then none
  else
    let flags := data.getD 3 0
    let mtime := fromBytesLE ((data.drop 4).take 4)
    let osb := data.getD 9 0
    let ep : Option (List Nat) × Nat :=
      if flags &&& 4 ≠ 0 then
        let xlen := fromBytesLE ((data.drop 10).take 2)
        (some ((data.drop 12).take xlen), 12 + xlen)
      else (none, 10)
    let fp : Option (Option (List Nat) × Nat) :=
      if flags &&& 8 ≠ 0 then
        (parseCString data ep.2).map (fun r => (some r.1, r.2))
      else some (none, ep.2)
    match fp with
    | none => none
    | some (fname, pos2) =>
      let cp : Option (Option (List Nat) × Nat) :=
        if flags &&& 16 ≠ 0 then
          (parseCString data pos2).map (fun r => (some r.1, r.2))
        else some (none, pos2)
      match cp with
      | none => none
      | some (fcomment, _) =>
        some ⟨mtime, osb, flags, ep.1, fname, fcomment⟩

/-- the fixed-position writes of `patch_gzip_header` (lines 135-143):
flags byte, mtime bytes, XFL forced to 0, OS byte. -/
def gzipFixedPatch (data : List Nat) (header : GzipHeader) : List Nat :=
  ((splice (data.set 3 (header.flags &&& 255)) 4 8
      (toBytesLE 4 header.mtime)).set 8 0).set 9 (header.os &&& 255)

/-- the FEXTRA handling of `patch_gzip_header` (lines 145-154), on the
buffer with the cursor at 10; returns the buffer and the new cursor. -/
def gzipExtraStep (header : GzipHeader) (p : List Nat) : List Nat × Nat :=
  if header.flags &&& 4 ≠ 0 then
    match header.extra with
    | some e => (splice p 10 12 (toBytesLE 2 e.length ++ e), 12 + e.length)
    | none =>
      let xlen := fromBytesLE ((p.drop 10).take 2)
      (splice p 10 (12 + xlen) [], 10)
  else (p, 10)

/-- the FNAME handling of `patch_gzip_header` (lines 156-166). -/
def gzipFnameStep (header : GzipHeader) (st : List Nat × Nat) : List Nat × Nat :=
  if header.flags &&& 8 ≠ 0 then
    match header.fname with
    | some f => (splice st.1 st.2 st.2 (f ++ [0]), st.2 + (f.length + 1))
    | none =>
      match findNul st.1 st.2 with
      | some e => (splice st.1 st.2 (e + 1) [], (splice st.1 st.2 (e + 1) []).length)
      | none => st
  else st

/-- the FCOMMENT handling of `patch_gzip_header` (lines 168-176). -/
def gzipFcommentStep (header : GzipHeader) (st : List Nat × Nat) : List Nat :=
  if header.flags &&& 16 ≠ 0 then
    match header.fcomment with
    | some c => splice st.1 st.2 st.2 (c ++ [0])
    | none =>
      match findNul st.1 st.2 with
      | some e => splice st.1 st.2 (e + 1) []
      | none => st.1
  else st.1

/-- `patch_gzip_header`: returns short buffers unchanged, otherwise
overwrites flags, mtime, XFL (forced to 0) and OS in place and then
handles the FEXTRA / FNAME / FCOMMENT fields exactly as the Python
slice arithmetic does. -/
def patch_gzip_header (data : List Nat) (header : GzipHeader) : List Nat :=
  if data.length < 10 then data
  else
    gzipFcommentStep header
      (gzipFnameStep header
        (gzipExtraStep header (gzipFixedPatch data header)))

/-! ## Bzip2 header codec (`torrent_compress_recovery/bz2.py`) -/

/-- `Bzip2Header` dataclass: just the compression level. -/
structure Bzip2Header where
  level : Nat
deriving DecidableEq, Repr

/-- `parse_bzip2_header`: reads 4 bytes, checks the `BZh` magic and that
the level digit is an ASCII digit in `'1'..'9'`. -/
def parse_bzip2_header (fileBytes : List Nat) : Option Bzip2Header :=
  let data := fileBytes.take 4
  if data.length < 4 ∨ data.take 3 ≠ [66, 90, 104] then none
  else if data.getD 3 0 < 49 ∨ 57 < data.getD 3 0 then none
  else some ⟨data.getD 3 0 - 48⟩

/-- `patch_bzip2_header`: input returned unchanged when shorter than 4
bytes or lacking the `BZh` magic, otherwise byte 3 is overwritten with
the ASCII digit of the level (`ord(str(level))`, equal to `48 + level`
for the single-digit levels the dataclass carries). -/
def patch_bzip2_header (data : List Nat) (header : Bzip2Header) : List Nat :=
  if data.length < 4 ∨ data.take 3 ≠ [66, 90, 104] then data
  else data.set 3 (48 + header.level)

/-! ## Candidate engine (`gzip.py` / `bz2.py`)

Subprocess invocations and the in-process `gzip` / `bz2` compression
primitives are external effects; they are modelled as an environment
record fixed for one `generate_*_candidates` run on one source file.
`toolOutput` returns `some stdout` for a successful tool invocation and
`none` for `FileNotFoundError` / `CalledProcessError` (both silently
skipped by the source). -/

structure GzipEnv where
  /-- `gzip.GzipFile(filename="", mtime=m)` writing `src` : the bytes of
  the process-own compression of `src` with forced mtime `m`. -/
  gzipCompress : List Nat → Nat → List Nat
  /-- whether the `pigz --version` probe succeeds. -/
  pigzAvailable : Bool
  /-- stdout of `tool -level [-n] [--rsyncable] -c src`, or `none`. -/
  toolOutput : String → Nat → Bool → Bool → Option (List Nat)

/-- `_generate_header_match_candidate`: compress with the process's own
primitive, forcing the captured mtime, then patch the header. -/
def generate_header_match_candidate (env : GzipEnv) (srcBytes : List Nat)
    (header : GzipHeader) : String × List Nat :=
  ("header_match", patch_gzip_header (env.gzipCompress srcBytes header.mtime) header)

/-- `_get_available_tools`. -/
def get_available_tools (env : GzipEnv) : List String :=
  ["gzip"] ++ (if env.pigzAvailable then ["pigz"] else [])

/-- the label `f"{tool} -{level}" (+ " -n") (+ " --rsyncable")`. -/
def gzipToolLabel (tool : String) (level : Nat) (noName rsyncable : Bool) : String :=
  tool ++ " -" ++ toString level ++ (if noName then " -n" else "")
    ++ (if rsyncable then " --rsyncable" else "")

/-- `_generate_tool_candidate`: run the tool; on success patch the
stdout with the captured header when one exists. -/
def generate_tool_candidate (env : GzipEnv) (tool : String) (level : Nat)
    (noName rsyncable : Bool) (header : Option GzipHeader) :
    Option (String × List Nat) :=
  match env.toolOutput tool level noName rsyncable with
  | none => none
  | some out =>
    let data := match header with
      | some h => patch_gzip_header out h
      | none => out
    some (gzipToolLabel tool level noName rsyncable, data)

/-- the brute-force sweep of `generate_gzip_candidates` (step 2), in the
source's nested loop order. -/
def gzipToolSweep (env : GzipEnv) (header : Option GzipHeader) :
    List (String × List Nat) :=
  (get_available_tools env).flatMap (fun tool =>
    [1, 6, 9].flatMap (fun level =>
      [true, false].flatMap (fun noName =>
        (if tool = "gzip" then [false, true] else [false]).filterMap
          (fun rsyncable =>
            generate_tool_candidate env tool level noName rsyncable header))))

/-- `generate_gzip_candidates`: header-match candidate first (when a
captured header exists), then the brute-force sweep. -/
def generate_gzip_candidates (env : GzipEnv) (srcBytes : List Nat)
    (header : Option GzipHeader) : List (String × List Nat) :=
  (match header with
   | some h => [generate_header_match_candidate env srcBytes h]
   | none => []) ++ gzipToolSweep env header

structure Bzip2Env where
  /-- `bz2.compress(src, compresslevel=l)`; `none` models the caught
  `OSError` / `ValueError`. -/
  bz2Compress : List Nat → Nat → Option (List Nat)
  /-- whether the `pbzip2 -h` probe succeeds. -/
  pbzip2Available : Bool
  /-- stdout of `tool -level -c src`, or `none` on failure. -/
  toolOutput : String → Nat → Option (List Nat)

/-- the brute-force sweep of `generate_bzip2_candidates`: note the
candidates are appended as raw stdout, with no header patching. -/
def bzip2ToolSweep (env : Bzip2Env) : List (String × List Nat) :=
  (["bzip2"] ++ (if env.pbzip2Available then ["pbzip2"] else [])).flatMap
    (fun tool =>
      [1, 6, 9].filterMap (fun level =>
        (env.toolOutput tool level).map
          (fun d => (tool ++ " -" ++ toString level, d))))

/-- `generate_bzip2_candidates`. -/
def generate_bzip2_candidates (env : Bzip2Env) (srcBytes : List Nat)
    (header : Option Bzip2Header) : List (String × List Nat) :=
  (match header with
   | some h =>
     match env.bz2Compress srcBytes h.level with
     | some d => [("header_match", d)]
     | none => []
   | none => []) ++ bzip2ToolSweep env

/-- `find_matching_candidate`, generic over the chosen hash function. -/
def findMatchAux (hashFn : List Nat → List Nat) (target : List Nat)
    (pieceLength : Nat) : List (String × List Nat) → Option (String × List Nat)
  | [] => none
  | (label, data) :: rest =>
    if data.length < pieceLength then findMatchAux hashFn target pieceLength rest
    else if hashFn (data.take pieceLength) = target then some (label, data)
    else findMatchAux hashFn target pieceLength rest

/-- `find_matching_candidate`: the SHA-1 and SHA-256 primitives
(`hashlib`) are external and passed as parameters. -/
def find_matching_candidate (sha1Piece sha256Piece : List Nat → List Nat)
    (candidates : List (String × List Nat)) (targetPieceHash : List Nat)
    (pieceLength : Nat) (hashAlgo : String) : Option (String × List Nat) :=
  findMatchAux (if hashAlgo = "sha1" then sha1Piece else sha256Piece)
    targetPieceHash pieceLength candidates

/-! ## Torrent metadata parser (`bencode.py`)

`bencodepy.decode` is an external library; `parse_torrent` is modelled
from the already-decoded value onward.  Bencoded values are ints, byte
strings, lists and (insertion-ordered) dicts with byte-string keys.
Path strings are kept as their raw bytes: the source decodes them with
`errors="replace"`, an external codec concern that none of the claims
depend on. -/

inductive BValue where
  | int : Int → BValue
  | str : List Nat → BValue
  | list : List BValue → BValue
  | dict : List (List Nat × BValue) → BValue
deriving Repr

/-- `dct.get(key)` on an insertion-ordered dict. -/
def dget : List (List Nat × BValue) → List Nat → Option BValue
  | [], _ => none
  | (k, v) :: rest, key => if k = key then some v else dget rest key

/-- `TorrentFile` dataclass (paths as raw bytes, `/`-joined). -/
structure TorrentFile where
  rel_path : List Nat
  length : Option Int
  offset : Int
  sha1 : Option (List Nat) := none
  attr : Option (List Nat) := none
  symlink_path : Option (List (List Nat)) := none
deriving DecidableEq, Repr

/-- `TorrentMeta` dataclass. -/
structure TorrentMeta where
  name : List Nat
  files : List TorrentFile
  piece_length : Int
  pieces : List (List Nat)
  version : String
deriving DecidableEq, Repr

/-- byte-string keys used by `parse_torrent` (`b"info"`, `b"name"`, ...). -/
def keyInfo : List Nat := [105, 110, 102, 111]
def keyName : List Nat := [110, 97, 109, 101]
def keyMetaVersion : List Nat := [109, 101, 116, 97, 32, 118, 101, 114, 115, 105, 111, 110]
def keyPieces : List Nat := [112, 105, 101, 99, 101, 115]
def keyPieceLength : List Nat := [112, 105, 101, 99, 101, 32, 108, 101, 110, 103, 116, 104]
def keyFileTree : List Nat := [102, 105, 108, 101, 32, 116, 114, 101, 101]
def keyFiles : List Nat := [102, 105, 108, 101, 115]
def keyLength : List Nat := [108, 101, 110, 103, 116, 104]
def keyPath : List Nat := [112, 97, 116, 104]
def keySha1 : List Nat := [115, 104, 97, 49]
def keyAttr : List Nat := [97, 116, 116, 114]
def keySymlinkPath : List Nat := [115, 121, 109, 108, 105, 110, 107, 32, 112, 97, 116, 104]

/-- `length` lookup shared by all file branches:
`plen if isinstance(plen, int) else None`. -/
def bLength (d : List (List Nat × BValue)) : Option Int :=
  match dget d keyLength with
  | some (.int n) => some n
  | _ => none

/-- `sha1` lookup: bytes of length 20, else `None`. -/
def bSha1 (d : List (List Nat × BValue)) : Option (List Nat) :=
  match dget d keySha1 with
  | some (.str s) => if s.length = 20 then some s else none
  | _ => none

/-- `attr` lookup: a byte string, else `None`. -/
def bAttr (d : List (List Nat × BValue)) : Option (List Nat) :=
  match dget d keyAttr with
  | some (.str s) => some s
  | _ => none

/-- decode the `path` parts; `none` when some part is not a byte string
(the source then `continue`s past the entry). -/
def decodeParts : List BValue → Option (List (List Nat))
  | [] => some []
  | .str s :: rest => (decodeParts rest).map (fun ps => s :: ps)
  | _ :: _ => none

/-- `"/".join(p)`. -/
def joinPath : List (List Nat) → List Nat
  | [] => []
  | [p] => p
  | p :: rest => p ++ 47 :: joinPath rest

/-- `symlink path` lookup: when present as a list, keep the byte-string
parts. -/
def bSymlink (d : List (List Nat × BValue)) : Option (List (List Nat)) :=
  match dget d keySymlinkPath with
  | some (.list parts) =>
    some (parts.filterMap (fun p => match p with | .str s => some s | _ => none))
  | _ => none

/-- the v1 multi-file loop of `parse_torrent`: entries that are not
dicts, or whose `path` is missing, empty or has a non-bytes part, are
skipped without advancing the offset. -/
def parseV1Files : List BValue → Int → List TorrentFile
  | [], _ => []
  | fe :: rest, off =>
    match fe with
    | .dict fed =>
      match dget fed keyPath with
      | some (.list []) => parseV1Files rest off
      | some (.list parts) =>
          match decodeParts parts with
          | some ps =>
            let len := bLength fed
            ⟨joinPath ps, len, off, bSha1 fed, bAttr fed, bSymlink fed⟩ ::
              parseV1Files rest (off + len.getD 0)
          | none => parseV1Files rest off
      | _ => parseV1Files rest off
    | _ => parseV1Files rest off

/-- `_parse_v2_file_tree`: a dict entry containing key `b""` is a file
(appended and the offset advanced), any other dict entry is a directory
(recursed into with the *current* offset, which the caller does not
advance afterwards — see C8). -/
def parseV2FileTree : List (List Nat × BValue) → List Nat → Int → List TorrentFile
  | [], _, _ => []
  | (k, v) :: rest, pre, off =>
    let fullPath := if pre = [] then k else pre ++ 47 :: k
    match v with
    | .dict d =>
      match dget d [] with
      | some (.dict fd) =>
        let len := bLength fd
        ⟨fullPath, len, off, bSha1 fd, bAttr fd, none⟩ ::
          parseV2FileTree rest pre (off + len.getD 0)
      | some _ => parseV2FileTree rest pre off
      | none => parseV2FileTree d fullPath off ++ parseV2FileTree rest pre off
    | _ => parseV2FileTree rest pre off
termination_by entries => sizeOf entries
decreasing_by all_goals simp_wf <;> omega

/-- fuel-indexed worker for `chunk20`; the fuel (`b.length` at top
level) only drives structural termination and is never exhausted. -/
def chunk20Go : Nat → List Nat → List (List Nat)
  | 0, _ => []
  | _, [] => []
  | fuel + 1, x :: xs => (x :: xs).take 20 :: chunk20Go fuel ((x :: xs).drop 20)

/-- split the `pieces` byte string into its 20-byte hashes
(`[pieces_raw[i:i+20] for i in range(0, len(pieces_raw), 20)]`). -/
def chunk20 (b : List Nat) : List (List Nat) := chunk20Go b.length b

/-- the file-list construction of `parse_torrent`: v2 file tree (or v2
single file), v1 multi-file, or v1 single-file; `none` models the
`BencodeError` raised on a non-list `files` entry. -/
def torrentFiles (info : List (List Nat × BValue)) (name : List Nat)
    (version : String) : Option (List TorrentFile) :=
  if version = "v2" then
    some (match dget info keyFileTree with
      | some (.dict tree) => parseV2FileTree tree [] 0
      | _ => [⟨name, bLength info, 0, none, none, none⟩])
  else if (dget info keyFiles).isSome then
    match dget info keyFiles with
    | some (.list fentries) => some (parseV1Files fentries 0)
    | _ => none
  else
    some [⟨name, bLength info, 0, bSha1 info, bAttr info, none⟩]

/-- `parse_torrent`, from the decoded bencode root onward (`stem` models
`Path(torrent_path).stem`; `none` models a raised `BencodeError`). -/
def parse_torrent (root : BValue) (stem : List Nat) : Option TorrentMeta :=
  match root with
  | .dict rootd =>
    match dget rootd keyInfo with
    | some (.dict info) =>
      let name := match dget info keyName with
        | some (.str s) => if s = [] then stem else s
        | _ => stem
      let version0 := match dget info keyMetaVersion with
        | some (.int n) => if n = 2 then "v2" else "v1"
        | _ => "v1"
      let version := if version0 = "v2" ∧ (dget info keyPieces).isSome
        then "hybrid" else version0
      let plPieces : Option (Int × List (List Nat)) :=
        if version = "v2" then some (16384, [])
        else
          match dget info keyPieceLength with
          | some (.int pl) =>
            match dget info keyPieces with
            | some (.str praw) =>
              if praw.length % 20 ≠ 0 then none
              else some (pl, chunk20 praw)
            | _ => none
          | _ => none
      match plPieces with
      | none => none
      | some (pl, pieces) =>
        match torrentFiles info name version with
        | none => none
        | some files => some ⟨name, files, pl, pieces, version⟩
    | _ => none
  | _ => none

/-! ## Trailer verification engine

Modelled from the spec: the `verify` module the tests import
(`compute_raw_crc32_and_isize` and friends) is not present under the
sources; §4.3 specifies it as streaming the file in fixed-size chunks,
folding each chunk into a running CRC32 accumulator and byte counter,
with an empty file yielding `(0, 0)` and content `C` yielding
`(CRC32(C), len(C) mod 2^32)`. -/

/-- one step of the CRC-32 (ISO-HDLC, polynomial `0xEDB88320`) table
computation. -/
def crc32Step (c : Nat) : Nat :=
  if c % 2 = 1 then (c / 2) ^^^ 0xEDB88320 else c / 2

/-- the CRC-32 table entry for index `n` (8 shift/xor rounds). -/
def crc32TableEntry (n : Nat) : Nat := crc32Step^[8] n

/-- fold one byte into the CRC-32 accumulator. -/
def crc32Update (crc b : Nat) : Nat :=
  (crc / 256) ^^^ crc32TableEntry ((crc ^^^ b) % 256)

/-- CRC-32 accumulator run over a byte list. -/
def crc32Aux (crc : Nat) (data : List Nat) : Nat := data.foldl crc32Update crc

/-- reference CRC-32 of a whole buffer (`zlib.crc32(data)`). -/
def crc32 (data : List Nat) : Nat := crc32Aux 0xFFFFFFFF data ^^^ 0xFFFFFFFF

/-- incremental `zlib.crc32(chunk, running)`. -/
def crc32Incr (data : List Nat) (v : Nat) : Nat :=
  crc32Aux (v ^^^ 0xFFFFFFFF) data ^^^ 0xFFFFFFFF

/-- Modelled from the spec: `compute_raw_crc32_and_isize`, folding each
chunk of the file into a running CRC32 accumulator and a byte counter
kept modulo `2^32` (the gzip ISIZE width); the chunk list is the file
content split at the fixed chunk size. -/
def compute_raw_crc32_and_isize (chunks : List (List Nat)) : Nat × Nat :=
  chunks.foldl (fun acc ch => (crc32Incr ch acc.1, (acc.2 + ch.length) % 4294967296)) (0, 0)

/-! ## Specification-side definitions and concrete instances

`offsetsFrom` states the offset invariant of the torrent data model;
`gzipParseFail` / `bzip2ParseFail` transcribe the claimed parse failure
cases; the `...Env` / `...Root` values are concrete instances used by
counterexamples and witnesses. -/

/-- the offsets of a file list form running prefix sums starting at
`off`, an absent length counting as 0. -/
def offsetsFrom : Int → List TorrentFile → Prop
  | _, [] => True
  | off, f :: rest => f.offset = off ∧ offsetsFrom (off + f.length.getD 0) rest

/-- the cursor position after the (optional) FEXTRA field, where the
FNAME NUL scan starts. -/
def gzipNulScanStart (data : List Nat) : Nat :=
  if data.getD 3 0 &&& 4 ≠ 0 then 12 + fromBytesLE ((data.drop 10).take 2)
  else 10

/-- the cursor position after the (optional) FNAME field, where the
FCOMMENT NUL scan starts; `none` when the FNAME scan already failed. -/
def gzipFnamePos (data : List Nat) : Option Nat :=
  if data.getD 3 0 &&& 8 ≠ 0 then
    (findNul data (gzipNulScanStart data)).map (· + 1)
  else some (gzipNulScanStart data)

/-- the claim's gzip failure cases: too short, bad magic, method ≠ 8, or
a flagged FNAME / FCOMMENT field without a NUL terminator in the bytes
read. -/
def gzipParseFail (b : List Nat) : Prop :=
  b.length < 10 ∨ b.take 2 ≠ [31, 139] ∨ (b.take 256).getD 2 0 ≠ 8 ∨
    ((b.take 256).getD 3 0 &&& 8 ≠ 0
      ∧ findNul (b.take 256) (gzipNulScanStart (b.take 256)) = none) ∨
    ((b.take 256).getD 3 0 &&& 16 ≠ 0
      ∧ ∃ p, gzipFnamePos (b.take 256) = some p ∧ findNul (b.take 256) p = none)

/-- the claim's bzip2 failure cases: too short, bad magic, or a level
digit outside ASCII `'1'..'9'`. -/
def bzip2ParseFail (b : List Nat) : Prop :=
  b.length < 4 ∨ b.take 3 ≠ [66, 90, 104] ∨ b.getD 3 0 < 49 ∨ 57 < b.getD 3 0

def c5CexEnv : Bzip2Env :=
  ⟨fun _ _ => none, false,
   fun tool level => if tool = "bzip2" ∧ level = 1
     then some [66, 90, 104, 49] else none⟩

def c5WitnessEnvG : GzipEnv := ⟨fun _ _ => [], false, fun _ _ _ _ => some [9]⟩

def c5WitnessEnvB : Bzip2Env := ⟨fun _ _ => none, false, fun _ _ => some [7]⟩

def c8WitnessRoot : BValue := .dict [(keyInfo, .dict [
  (keyName, .str [97]),
  (keyPieceLength, .int 4),
  (keyPieces, .str [])])]

def c8WitnessMeta : TorrentMeta :=
  ⟨[97], [⟨[97], none, 0, none, none, none⟩], 4, [], "v1"⟩

def c8CexTree : List (List Nat × BValue) :=
  [([100], .dict [([97], .dict [([], .dict [(keyLength, .int 5)])])]),
   ([98], .dict [([], .dict [(keyLength, .int 3)])])]

def c8CexRoot : BValue := .dict [(keyInfo, .dict [
  (keyName, .str [116]),
  (keyMetaVersion, .int 2),
  (keyFileTree, .dict c8CexTree)])]

/-! ## Helper lemmas on byte lists -/

theorem and255_eq_mod (n : Nat) : n &&& 255 = n % 256 := by
  have := Nat.and_pow_two_sub_one_eq_mod n 8
  simpa using this

theorem getD_take_of_lt (l : List Nat) {n i : Nat} (h : i < n) :
    (l.take n).getD i 0 = l.getD i 0 := by
  simp [List.getD, List.getElem?_take, h]

theorem getD_set_self (l : List Nat) {i : Nat} (v : Nat) (h : i < l.length) :
    (l.set i v).getD i 0 = v := by
  simp [List.getD, List.getElem?_set_eq_of_lt v h]

theorem getD_set_ne (l : List Nat) {i j : Nat} (v : Nat) (h : i ≠ j) :
    (l.set i v).getD j 0 = l.getD j 0 := by
  simp [List.getD, List.getElem?_set_ne h]

theorem set_getD_self : ∀ (l : List Nat) (i : Nat), l.set i (l.getD i 0) = l
  | [], _ => rfl
  | _ :: _, 0 => rfl
  | x :: xs, i + 1 => by
    simpa [List.set, List.getD] using congrArg (x :: ·) (set_getD_self xs i)

theorem set_eq_self_of_getD {l : List Nat} {i v : Nat} (h : l.getD i 0 = v) :
    l.set i v = l := by
  rw [← h]; exact set_getD_self l i

theorem getD_lt_of_wf {b : List Nat} (hwf : BytesWF b) {i : Nat}
    (hi : i < b.length) : b.getD i 0 < 256 := by
  have : b.getD i 0 ∈ b := by
    have := List.getD_eq_getElem b 0 hi
    rw [this]
    exact List.getElem_mem hi
  exact hwf _ this

theorem wf_drop {b : List Nat} (hwf : BytesWF b) (n : Nat) :
    BytesWF (b.drop n) := fun x hx => hwf x (List.mem_of_mem_drop hx)

theorem wf_take {b : List Nat} (hwf : BytesWF b) (n : Nat) :
    BytesWF (b.take n) := fun x hx => hwf x (List.mem_of_mem_take hx)

theorem toFromBytesLE : ∀ (l : List Nat), BytesWF l →
    toBytesLE l.length (fromBytesLE l) = l
  | [], _ => rfl
  | x :: xs, hwf => by
    have hx : x < 256 := hwf x (List.mem_cons_self x xs)
    have hxs : BytesWF xs := fun y hy => hwf y (List.mem_cons_of_mem x hy)
    have h1 : (x + 256 * fromBytesLE xs) % 256 = x := by omega
    have h2 : (x + 256 * fromBytesLE xs) / 256 = fromBytesLE xs := by omega
    simp only [fromBytesLE, toBytesLE, List.length_cons, h1, h2]
    exact congrArg (x :: ·) (toFromBytesLE xs hxs)

theorem splice_self (l : List Nat) {i j : Nat} (hij : i ≤ j) :
    splice l i j ((l.drop i).take (j - i)) = l := by
  unfold splice
  have hdrop : (l.drop i).drop (j - i) = l.drop j := by
    rw [List.drop_drop]
    congr 1
    omega
  rw [← hdrop, List.append_assoc, List.take_append_drop, List.take_append_drop]

/-- the mutable-`pos` invariant of `patch_gzip_header`: after the fixed
fields are written the cursor stays between 10 and the buffer length. -/
theorem splice_length (l : List Nat) (i j : Nat) (r : List Nat) :
    (splice l i j r).length = min i l.length + r.length + (l.length - j) := by
  simp [splice, List.length_take, List.length_drop]
  omega

/-! ## C7: bzip2 patch frame property -/

/-- C7: for every byte buffer `b` and `Bzip2Header` H, `patch_bzip2_header`
returns `b` unmodified when `b` is shorter than 4 bytes or does not start
with the bzip2 magic `BZh`; otherwise it returns a buffer of the same
length that differs from `b` at most at byte offset 3, which is set to
the ASCII digit of H's level, all other bytes unchanged. -/
theorem patch_bzip2_frame (b : List Nat) (h : Bzip2Header) (_hl : h.level ≤ 9) :
    ((b.length < 4 ∨ b.take 3 ≠ [66, 90, 104]) → patch_bzip2_header b h = b)
    ∧ (4 ≤ b.length → b.take 3 = [66, 90, 104] →
        (patch_bzip2_header b h).length = b.length
        ∧ (patch_bzip2_header b h).getD 3 0 = 48 + h.level
        ∧ ∀ i, i ≠ 3 → (patch_bzip2_header b h).getD i 0 = b.getD i 0) := by
  constructor
  · intro hbad
    unfold patch_bzip2_header
    rw [if_pos hbad]
  · intro hlen hmagic
    have hcond : ¬(b.length < 4 ∨ b.take 3 ≠ [66, 90, 104]) := by
      push_neg
      exact ⟨by omega, hmagic⟩
    unfold patch_bzip2_header
    rw [if_neg hcond]
    refine ⟨List.length_set b 3 _, getD_set_self b _ (by omega), ?_⟩
    intro i hi
    exact getD_set_ne b _ (fun hh => hi hh.symm)

/-- witness for C7 at concrete inputs. -/
theorem patch_bzip2_frame_witness :
    patch_bzip2_header [1, 2] ⟨5⟩ = [1, 2]
    ∧ (patch_bzip2_header [66, 90, 104, 49, 7] ⟨5⟩).getD 3 0 = 53 := by
  constructor
  · exact (patch_bzip2_frame [1, 2] ⟨5⟩ (by decide)).1 (by decide)
  · exact ((patch_bzip2_frame [66, 90, 104, 49, 7] ⟨5⟩ (by decide)).2
      (by decide) (by decide)).2.1

/-! ## C3: candidate matching -/

theorem findMatchAux_eq_find? (hf : List Nat → List Nat) (t : List Nat)
    (plen : Nat) : ∀ cands, findMatchAux hf t plen cands =
      cands.find? (fun c => decide (plen ≤ c.2.length)
        && decide (hf (c.2.take plen) = t))
  | [] => rfl
  | (label, data) :: rest => by
    by_cases hshort : data.length < plen
    · have h1 : ¬ plen ≤ data.length := by omega
      simp [findMatchAux, List.find?, hshort, h1,
        findMatchAux_eq_find? hf t plen rest]
    · have h1 : plen ≤ data.length := by omega
      by_cases hhash : hf (data.take plen) = t
      · simp [findMatchAux, List.find?, hshort, h1, hhash]
      · simp [findMatchAux, List.find?, hshort, h1, hhash,
          findMatchAux_eq_find? hf t plen rest]

theorem findMatchAux_first_match (hf : List Nat → List Nat) (t : List Nat)
    (plen : Nat) : ∀ (cands : List (String × List Nat)) (i : Nat)
    (hi : i < cands.length),
    (∀ c ∈ cands.take i, ¬(plen ≤ c.2.length ∧ hf (c.2.take plen) = t)) →
    plen ≤ (cands.get ⟨i, hi⟩).2.length →
    hf ((cands.get ⟨i, hi⟩).2.take plen) = t →
    findMatchAux hf t plen cands = some (cands.get ⟨i, hi⟩)
  | [], i, hi => by simp at hi
  | (label, data) :: rest, 0, hi => by
    intro _ hlen hhash
    have hlen' : plen ≤ data.length := hlen
    have hhash' : hf (data.take plen) = t := hhash
    have hshort : ¬ data.length < plen := by omega
    simp [findMatchAux, hshort, hhash', List.get]
  | (label, data) :: rest, i + 1, hi => by
    intro hearlier hlen hhash
    have hhead : ¬(plen ≤ data.length ∧ hf (data.take plen) = t) :=
      hearlier (label, data) (by simp [List.take])
    have hrec := findMatchAux_first_match hf t plen rest i
      (by simpa using Nat.lt_of_succ_lt_succ hi)
      (fun c hc => hearlier c (by simp [List.take, hc]))
      (by simpa using hlen) (by simpa using hhash)
    by_cases hshort : data.length < plen
    · simpa [findMatchAux, hshort] using hrec
    · have h1 : plen ≤ data.length := by omega
      have hhash' : ¬ hf (data.take plen) = t := fun hh => hhead ⟨h1, hh⟩
      simpa [findMatchAux, hshort, hhash'] using hrec

/-- C3: `find_matching_candidate` scans candidates in list order, skips
candidates shorter than the piece length, hashes exactly the first
`piece_length` bytes with the selected algorithm, returns the first
match, `none` when no candidate matches; in particular, if candidate `i`
matches and no earlier one does, candidate `i` is returned. -/
theorem find_matching_candidate_spec (sha1Piece sha256Piece : List Nat → List Nat)
    (cands : List (String × List Nat)) (target : List Nat) (plen : Nat)
    (algo : String) :
    (find_matching_candidate sha1Piece sha256Piece cands target plen algo =
      cands.find? (fun c => decide (plen ≤ c.2.length) &&
        decide ((if algo = "sha1" then sha1Piece else sha256Piece)
          (c.2.take plen) = target)))
    ∧ (∀ (i : Nat) (hi : i < cands.length),
        (∀ c ∈ cands.take i,
          ¬(plen ≤ c.2.length ∧
            (if algo = "sha1" then sha1Piece else sha256Piece)
              (c.2.take plen) = target)) →
        plen ≤ (cands.get ⟨i, hi⟩).2.length →
        (if algo = "sha1" then sha1Piece else sha256Piece)
          ((cands.get ⟨i, hi⟩).2.take plen) = target →
        find_matching_candidate sha1Piece sha256Piece cands target plen algo =
          some (cands.get ⟨i, hi⟩)) := by
  constructor
  · exact findMatchAux_eq_find? _ target plen cands
  · intro i hi hearlier hlen hhash
    exact findMatchAux_first_match _ target plen cands i hi hearlier hlen hhash

/-- witness for C3: the identity "hash", candidate 1 matches, candidate 0
is too short. -/
theorem find_matching_candidate_spec_witness :
    find_matching_candidate (fun l => l) (fun l => l)
      [("a", [1]), ("b", [2, 3, 4])] [2, 3] 2 "sha1" = some ("b", [2, 3, 4]) := by
  have h := (find_matching_candidate_spec (fun l => l) (fun l => l)
    [("a", [1]), ("b", [2, 3, 4])] [2, 3] 2 "sha1").2 1 (by decide)
    (by decide) (by decide) (by decide)
  simpa using h

/-! ## C9: trailer checksum computation (spec-modelled) -/

theorem crc32Aux_append (v : Nat) (a b : List Nat) :
    crc32Aux v (a ++ b) = crc32Aux (crc32Aux v a) b := by
  simp [crc32Aux, List.foldl_append]

theorem crc32Incr_incr (v : Nat) (a b : List Nat) :
    crc32Incr b (crc32Incr a v) = crc32Incr (a ++ b) v := by
  simp [crc32Incr, crc32Aux_append, Nat.xor_cancel_right]

theorem compute_crc_foldl (chunks : List (List Nat)) : ∀ (v s : Nat),
    s < 4294967296 →
    chunks.foldl (fun acc ch => (crc32Incr ch acc.1, (acc.2 + ch.length) % 4294967296)) (v, s)
      = (crc32Incr chunks.flatten v, (s + chunks.flatten.length) % 4294967296) := by
  induction chunks with
  | nil =>
    intro v s hs
    simp [crc32Incr, crc32Aux, Nat.xor_cancel_right, Nat.mod_eq_of_lt hs]
  | cons ch rest ih =>
    intro v s hs
    simp only [List.foldl_cons, List.flatten_cons]
    rw [ih (crc32Incr ch v) ((s + ch.length) % 4294967296)
      (Nat.mod_lt _ (by omega))]
    rw [crc32Incr_incr]
    congr 1
    simp [List.length_append]
    omega

/-- C9 (spec-modelled: the `verify` module is absent from the sources):
`compute_raw_crc32_and_isize` returns `(0, 0)` on an empty file, and on
content `C` (streamed as chunks) returns `(CRC32(C), len(C) mod 2^32)`
agreeing with the reference CRC32 definition; chunked streaming equals
hashing the whole content at once. -/
theorem compute_raw_crc32_and_isize_spec (chunks : List (List Nat)) :
    compute_raw_crc32_and_isize chunks =
      (crc32 chunks.flatten, chunks.flatten.length % 4294967296) := by
  unfold compute_raw_crc32_and_isize
  rw [compute_crc_foldl chunks 0 0 (by omega)]
  have h1 : crc32Incr chunks.flatten 0 = crc32 chunks.flatten := by
    simp [crc32Incr, crc32, Nat.zero_xor]
  rw [h1, Nat.zero_add]

/-! ## C4: header-match candidate comes first -/

/-- C4: with a captured header, `generate_gzip_candidates` is non-empty,
its first element is the header-match candidate (the process-own gzip
primitive at the captured mtime, then `patch_gzip_header` with the
captured header), and all brute-force tool candidates come after it. -/
theorem generate_gzip_candidates_header_first (env : GzipEnv)
    (srcBytes : List Nat) (h : GzipHeader) :
    generate_gzip_candidates env srcBytes (some h) ≠ []
    ∧ (generate_gzip_candidates env srcBytes (some h)).head? =
        some ("header_match",
          patch_gzip_header (env.gzipCompress srcBytes h.mtime) h)
    ∧ (generate_gzip_candidates env srcBytes (some h)).tail =
        gzipToolSweep env (some h) := by
  exact ⟨List.cons_ne_nil _ _, rfl, rfl⟩

/-! ## C5: brute-force candidates and header patching -/

/-- C1 counterexample: a valid gzip header whose XFL byte is 2 (as
`gzip -9` emits) parses successfully, but patching the very same buffer
with the parsed header forces XFL to 0 and changes the buffer. -/
theorem gzip_roundtrip_counterexample :
    parse_gzip_header [31, 139, 8, 0, 0, 0, 0, 0, 2, 3] =
      some ⟨0, 3, 0, none, none, none⟩
    ∧ patch_gzip_header [31, 139, 8, 0, 0, 0, 0, 0, 2, 3]
        ⟨0, 3, 0, none, none, none⟩ ≠ [31, 139, 8, 0, 0, 0, 0, 0, 2, 3] := by
  decide

/-- C2 counterexample: a header with FNAME set and a filename re-inserts
the `fname` field on every patch, so a second patch grows the buffer
again. -/
theorem gzip_patch_idempotence_counterexample :
    patch_gzip_header
        (patch_gzip_header [31, 139, 8, 0, 0, 0, 0, 0, 0, 3]
          ⟨0, 3, 8, none, some [65], none⟩)
        ⟨0, 3, 8, none, some [65], none⟩ ≠
      patch_gzip_header [31, 139, 8, 0, 0, 0, 0, 0, 0, 3]
        ⟨0, 3, 8, none, some [65], none⟩ := by
  decide

/-- C5 counterexample: with a captured bzip2 header of level 9, the
brute-force `bzip2 -1` candidate is appended as the tool's raw stdout
(`BZh1...`), not as its header-patched form (`BZh9...`). -/
theorem bzip2_sweep_unpatched_counterexample :
    generate_bzip2_candidates c5CexEnv [7] (some ⟨9⟩) =
      [("bzip2 -1", [66, 90, 104, 49])]
    ∧ patch_bzip2_header [66, 90, 104, 49] ⟨9⟩ ≠ [66, 90, 104, 49] := by
  decide

/-- C5 (amended): in the gzip brute-force sweep every candidate's bytes
are the header-patched tool stdout, while in the bzip2 sweep every
candidate's bytes are the raw tool stdout, with no patching. -/
theorem tool_candidates_patching (envG : GzipEnv) (envB : Bzip2Env)
    (hg : GzipHeader) (cg cb : String × List Nat)
    (hcg : cg ∈ gzipToolSweep envG (some hg))
    (hcb : cb ∈ bzip2ToolSweep envB) :
    (∃ tool level noName rsyncable out,
        envG.toolOutput tool level noName rsyncable = some out
        ∧ cg.2 = patch_gzip_header out hg)
    ∧ (∃ tool level out, envB.toolOutput tool level = some out ∧ cb.2 = out) := by
  constructor
  · simp only [gzipToolSweep, List.mem_flatMap, List.mem_filterMap] at hcg
    obtain ⟨tool, -, level, -, noName, -, rsyncable, -, hgen⟩ := hcg
    refine ⟨tool, level, noName, rsyncable, ?_⟩
    unfold generate_tool_candidate at hgen
    cases hout : envG.toolOutput tool level noName rsyncable with
    | none => rw [hout] at hgen; exact absurd hgen (by simp)
    | some out =>
      rw [hout] at hgen
      simp only [Option.some.injEq] at hgen
      exact ⟨out, rfl, by rw [← hgen]⟩
  · simp only [bzip2ToolSweep, List.mem_flatMap, List.mem_filterMap] at hcb
    obtain ⟨tool, -, level, -, hgen⟩ := hcb
    refine ⟨tool, level, ?_⟩
    cases hout : envB.toolOutput tool level with
    | none => rw [hout] at hgen; exact absurd hgen (by simp)
    | some out =>
      rw [hout] at hgen
      simp at hgen
      exact ⟨out, rfl, by rw [← hgen]⟩

/-- witness for C5's amended theorem at concrete environments. -/
theorem tool_candidates_patching_witness :
    (∃ tool level noName rsyncable out,
        c5WitnessEnvG.toolOutput tool level noName rsyncable = some out
        ∧ (("gzip -1 -n", [9]) : String × List Nat).2 =
          patch_gzip_header out ⟨0, 0, 0, none, none, none⟩)
    ∧ (∃ tool level out, c5WitnessEnvB.toolOutput tool level = some out
        ∧ (("bzip2 -1", [7]) : String × List Nat).2 = out) :=
  tool_candidates_patching c5WitnessEnvG c5WitnessEnvB
    ⟨0, 0, 0, none, none, none⟩ ("gzip -1 -n", [9]) ("bzip2 -1", [7])
    (by decide) (by decide)

/-! ## C8: torrent file offsets are prefix sums -/

theorem parseV1Files_offsets : ∀ (entries : List BValue) (off : Int),
    offsetsFrom off (parseV1Files entries off)
  | [], _ => trivial
  | fe :: rest, off => by
    cases fe with
    | dict fed =>
      rcases hpath : dget fed keyPath with _ | v
      · simpa [parseV1Files, hpath] using parseV1Files_offsets rest off
      · cases v with
        | int n => simpa [parseV1Files, hpath] using parseV1Files_offsets rest off
        | str s => simpa [parseV1Files, hpath] using parseV1Files_offsets rest off
        | dict d => simpa [parseV1Files, hpath] using parseV1Files_offsets rest off
        | list parts =>
          cases parts with
          | nil => simpa [parseV1Files, hpath] using parseV1Files_offsets rest off
          | cons p ps =>
            rcases hdec : decodeParts (p :: ps) with _ | qs
            · simpa [parseV1Files, hpath, hdec] using parseV1Files_offsets rest off
            · simp only [parseV1Files, hpath, hdec]
              exact ⟨rfl, parseV1Files_offsets rest _⟩
    | int n => simpa [parseV1Files] using parseV1Files_offsets rest off
    | str s => simpa [parseV1Files] using parseV1Files_offsets rest off
    | list l => simpa [parseV1Files] using parseV1Files_offsets rest off

theorem offsetsFrom_get : ∀ (files : List TorrentFile) (off : Int),
    offsetsFrom off files → ∀ (i : Nat) (hi : i < files.length),
      (files.get ⟨i, hi⟩).offset =
        off + ((files.take i).map (fun f => f.length.getD 0)).sum
  | [], _, _, i, hi => absurd hi (by simp)
  | f :: rest, off, h, 0, hi => by simpa using h.1
  | f :: rest, off, h, i + 1, hi => by
    have ih := offsetsFrom_get rest (off + f.length.getD 0) h.2 i
      (by simpa using Nat.lt_of_succ_lt_succ hi)
    simp only [List.get, List.take, List.map_cons, List.sum_cons]
    rw [ih]
    ring

theorem torrentFiles_offsets (info : List (List Nat × BValue)) (name : List Nat)
    (version : String) (hv : version ≠ "v2") (files : List TorrentFile)
    (hf : torrentFiles info name version = some files) :
    offsetsFrom 0 files := by
  unfold torrentFiles at hf
  rw [if_neg hv] at hf
  by_cases hkey : (dget info keyFiles).isSome
  · rw [if_pos hkey] at hf
    rcases hfe : dget info keyFiles with _ | v
    · rw [hfe] at hkey; simp at hkey
    · rw [hfe] at hf
      cases v with
      | list fentries =>
        simp only [Option.some.injEq] at hf
        rw [← hf]
        exact parseV1Files_offsets fentries 0
      | int n => simp at hf
      | str s => simp at hf
      | dict d => simp at hf
  · rw [if_neg hkey] at hf
    simp only [Option.some.injEq] at hf
    rw [← hf]
    exact ⟨rfl, trivial⟩

/-- C8 (amended): for every torrent parsed as v1 or hybrid, each file's
offset equals the sum of the declared lengths (absent counting 0) of the
files preceding it in the list; for v2 file-tree torrents the recursion
does not advance the offset past a subdirectory, so the invariant can
fail (see the counterexample). -/
theorem parse_torrent_offsets (root : BValue) (stem : List Nat)
    (meta : TorrentMeta) (hp : parse_torrent root stem = some meta)
    (hv : meta.version ≠ "v2") :
    ∀ (i : Nat) (hi : i < meta.files.length),
      (meta.files.get ⟨i, hi⟩).offset =
        ((meta.files.take i).map (fun f => f.length.getD 0)).sum := by
  cases root with
  | int n => simp [parse_torrent] at hp
  | str s => simp [parse_torrent] at hp
  | list l => simp [parse_torrent] at hp
  | dict rootd =>
    rcases hinfo : dget rootd keyInfo with _ | iv
    · simp [parse_torrent, hinfo] at hp
    · cases iv with
      | int n => simp [parse_torrent, hinfo] at hp
      | str s => simp [parse_torrent, hinfo] at hp
      | list l => simp [parse_torrent, hinfo] at hp
      | dict info =>
        simp only [parse_torrent, hinfo] at hp
        split at hp
        · exact absurd hp (by simp)
        · split at hp
          · exact absurd hp (by simp)
          · rename_i pl pieces hpl files hfiles
            rw [Option.some.injEq] at hp
            subst hp
            intro i hi
            have h0 := offsetsFrom_get _ 0
              (torrentFiles_offsets info _ _ hv files hfiles) i hi
            simpa using h0

/-- witness for C8's amended theorem on a concrete v1 torrent. -/
theorem parse_torrent_offsets_witness :
    (c8WitnessMeta.files.get ⟨0, by decide⟩).offset =
      ((c8WitnessMeta.files.take 0).map (fun f => f.length.getD 0)).sum :=
  parse_torrent_offsets c8WitnessRoot [] c8WitnessMeta (by decide)
    (by decide) 0 (by decide)

/-- C8 counterexample: a v2 file tree whose directory `d` (containing
`d/a` of length 5) is followed by sibling file `b`; `b` is parsed with
offset 0 although the preceding file's length sums to 5. -/
theorem parse_torrent_offsets_counterexample :
    ∃ meta, parse_torrent c8CexRoot [] = some meta ∧
      ¬ (∀ (i : Nat) (hi : i < meta.files.length),
          (meta.files.get ⟨i, hi⟩).offset =
            ((meta.files.take i).map (fun f => f.length.getD 0)).sum) := by
  have htree : parseV2FileTree c8CexTree [] 0 =
      [⟨[100, 47, 97], some 5, 0, none, none, none⟩,
       ⟨[98], some 3, 0, none, none, none⟩] := by
    simp [parseV2FileTree, c8CexTree, dget, bLength, bSha1, bAttr, keyLength,
      keySha1, keyAttr]
  have hstep : parse_torrent c8CexRoot [] =
      some ⟨[116], parseV2FileTree c8CexTree [] 0, 16384, [], "v2"⟩ := rfl
  rw [htree] at hstep
  refine ⟨_, hstep, ?_⟩
  intro hall
  exact absurd (hall 1 (by decide)) (by decide)

/-! ## C1: gzip header round-trip -/

/-- forward computation of `parse_gzip_header` on a valid buffer whose
flag byte has none of FEXTRA / FNAME / FCOMMENT set. -/
theorem parse_gzip_header_no_opt (b : List Nat)
    (hlen : 10 ≤ b.length) (hmagic : b.take 2 = [31, 139])
    (hmethod : b.getD 2 0 = 8)
    (h4 : b.getD 3 0 &&& 4 = 0) (h8 : b.getD 3 0 &&& 8 = 0)
    (h16 : b.getD 3 0 &&& 16 = 0) :
    parse_gzip_header b = some ⟨fromBytesLE ((b.drop 4).take 4), b.getD 9 0,
      b.getD 3 0, none, none, none⟩ := by
  have hd2 : (b.take 256).getD 2 0 = b.getD 2 0 := getD_take_of_lt b (by omega)
  have hd3 : (b.take 256).getD 3 0 = b.getD 3 0 := getD_take_of_lt b (by omega)
  have hd9 : (b.take 256).getD 9 0 = b.getD 9 0 := getD_take_of_lt b (by omega)
  have hdlen : (b.take 256).length = min 256 b.length := List.length_take 256 b
  have hdt2 : (b.take 256).take 2 = b.take 2 := by
    rw [List.take_take]; norm_num
  have hdm : (((b.take 256).drop 4).take 4) = ((b.drop 4).take 4) := by
    rw [List.drop_take, List.take_take]; norm_num
  have hcond1 : ¬((b.take 256).length < 10 ∨ (b.take 256).take 2 ≠ [31, 139]) := by
    push_neg
    constructor
    · omega
    · rw [hdt2, hmagic]
  simp only [parse_gzip_header]
  rw [if_neg hcond1, hd2, if_neg (by rw [hmethod]; exact fun hh => hh rfl)]
  rw [hd3]
  simp only [h4, h8, h16, ne_eq, not_true_eq_false, if_false, ite_false,
    reduceIte, hd9, hdm]

/-- with no optional-field flag set, patching is exactly the fixed-field
overwrite. -/
theorem patch_no_opt_eq_fixedPatch (b : List Nat) (H : GzipHeader)
    (hlen : 10 ≤ b.length)
    (h4 : H.flags &&& 4 = 0) (h8 : H.flags &&& 8 = 0) (h16 : H.flags &&& 16 = 0) :
    patch_gzip_header b H = gzipFixedPatch b H := by
  unfold patch_gzip_header gzipExtraStep gzipFnameStep gzipFcommentStep
  rw [if_neg (by omega)]
  simp only [h4, h8, h16, ne_eq, not_true_eq_false, reduceIte]

/-- C1 (amended): for a valid gzip buffer parsed to header H whose flag
byte has none of FEXTRA / FNAME / FCOMMENT set, patching the buffer with
H returns it with only the XFL byte (offset 8) forced to 0 — so the
round-trip is byte-for-byte exact iff XFL was already 0.  (With XFL ≠ 0
the buffer changes, see the counterexample; with optional-field flags
set patching re-inserts the fields and also breaks the round-trip.) -/
theorem gzip_roundtrip_amended (b : List Nat) (H : GzipHeader)
    (hwf : BytesWF b)
    (hp : parse_gzip_header b = some H)
    (hlen : 10 ≤ b.length) (hmagic : b.take 2 = [31, 139])
    (hmethod : b.getD 2 0 = 8)
    (h4 : b.getD 3 0 &&& 4 = 0) (h8 : b.getD 3 0 &&& 8 = 0)
    (h16 : b.getD 3 0 &&& 16 = 0) :
    patch_gzip_header b H = b.set 8 0 := by
  rw [parse_gzip_header_no_opt b hlen hmagic hmethod h4 h8 h16,
    Option.some.injEq] at hp
  rw [patch_no_opt_eq_fixedPatch b H hlen (by rw [← hp]; exact h4)
    (by rw [← hp]; exact h8) (by rw [← hp]; exact h16)]
  rw [← hp]
  unfold gzipFixedPatch
  have hflags : b.getD 3 0 &&& 255 = b.getD 3 0 := by
    rw [and255_eq_mod]
    exact Nat.mod_eq_of_lt (getD_lt_of_wf hwf (by omega))
  have hos : b.getD 9 0 &&& 255 = b.getD 9 0 := by
    rw [and255_eq_mod]
    exact Nat.mod_eq_of_lt (getD_lt_of_wf hwf (by omega))
  have hm4 : toBytesLE 4 (fromBytesLE ((b.drop 4).take 4)) = (b.drop 4).take 4 := by
    have hlen4 : ((b.drop 4).take 4).length = 4 := by
      rw [List.length_take, List.length_drop]; omega
    have hh := toFromBytesLE ((b.drop 4).take 4) (wf_take (wf_drop hwf 4) 4)
    rw [hlen4] at hh
    exact hh
  simp only [hflags, hos, hm4, set_getD_self]
  have hsp : splice b 4 8 ((b.drop 4).take 4) = b := by
    have hh := splice_self b (show (4:Nat) ≤ 8 by omega)
    norm_num at hh
    exact hh
  rw [hsp]
  apply set_eq_self_of_getD
  exact getD_set_ne b 0 (by omega)

/-- witness for C1's amended theorem. -/
theorem gzip_roundtrip_amended_witness :
    patch_gzip_header [31, 139, 8, 0, 0, 0, 0, 0, 0, 3]
        ⟨0, 3, 0, none, none, none⟩ =
      ([31, 139, 8, 0, 0, 0, 0, 0, 0, 3] : List Nat).set 8 0 :=
  gzip_roundtrip_amended _ _ (by decide) (by decide) (by decide) (by decide)
    (by decide) (by decide) (by decide) (by decide)

/-! ## C2: gzip patch idempotence -/

theorem toBytesLE_length : ∀ (k n : Nat), (toBytesLE k n).length = k
  | 0, _ => rfl
  | k + 1, n => by simp [toBytesLE, toBytesLE_length k]

theorem splice_getElem? (l r : List Nat) (i j n : Nat) (hi : i ≤ l.length) :
    (splice l i j r)[n]? =
      if n < i then l[n]?
      else if n - i < r.length then r[n - i]?
      else (l.drop j)[n - i - r.length]? := by
  unfold splice
  rw [List.getElem?_append, List.getElem?_append]
  rw [List.length_append, List.length_take]
  have hmin : min i l.length = i := by omega
  rw [hmin]
  by_cases h1 : n < i
  · have hc1 : n < i + r.length := by omega
    rw [if_pos hc1, if_pos h1, if_pos h1, List.getElem?_take, if_pos h1]
  · by_cases h2 : n - i < r.length
    · have hc1 : n < i + r.length := by omega
      rw [if_pos hc1, if_neg h1, if_neg h1, if_pos h2]
    · have hc1 : ¬ n < i + r.length := by omega
      rw [if_neg hc1, if_neg h1, if_neg h2]
      congr 1
      omega

theorem gzipFixedPatch_length (x : List Nat) (h : GzipHeader)
    (hlen : 8 ≤ x.length) : (gzipFixedPatch x h).length = x.length := by
  simp [gzipFixedPatch, splice_length, toBytesLE_length, List.length_set]
  omega

theorem gzipFixedPatch_getElem? (x : List Nat) (h : GzipHeader)
    (hlen : 10 ≤ x.length) (n : Nat) :
    (gzipFixedPatch x h)[n]? =
      if n = 3 then some (h.flags &&& 255)
      else if 4 ≤ n ∧ n < 8 then (toBytesLE 4 h.mtime)[n - 4]?
      else if n = 8 then some 0
      else if n = 9 then some (h.os &&& 255)
      else x[n]? := by
  have hsetlen : (x.set 3 (h.flags &&& 255)).length = x.length := List.length_set ..
  have hsplen : (splice (x.set 3 (h.flags &&& 255)) 4 8 (toBytesLE 4 h.mtime)).length
      = x.length := by
    rw [splice_length, toBytesLE_length, hsetlen]
    omega
  unfold gzipFixedPatch
  by_cases h9 : n = 9
  · subst h9
    rw [List.getElem?_set_eq_of_lt _ (by simp [List.length_set, hsplen]; omega)]
    norm_num
  · rw [List.getElem?_set_ne (fun hh => h9 hh.symm)]
    by_cases h8 : n = 8
    · subst h8
      rw [List.getElem?_set_eq_of_lt _ (by rw [hsplen]; omega)]
      norm_num
    · rw [List.getElem?_set_ne (fun hh => h8 hh.symm)]
      rw [splice_getElem? _ _ 4 8 n (by rw [hsetlen]; omega)]
      rw [toBytesLE_length]
      by_cases h3 : n = 3
      · subst h3
        rw [if_pos (by omega), List.getElem?_set_eq_of_lt _ (by omega), if_pos rfl]
      · by_cases hlt4 : n < 4
        · rw [if_pos hlt4, if_neg h3, if_neg (by omega : ¬(4 ≤ n ∧ n < 8)),
            if_neg h8, if_neg h9]
          exact List.getElem?_set_ne (fun hh => h3 hh.symm)
        · by_cases hlt8 : n - 4 < 4
          · rw [if_neg hlt4, if_pos hlt8, if_neg h3,
              if_pos (by omega : 4 ≤ n ∧ n < 8)]
          · rw [if_neg hlt4, if_neg hlt8, if_neg h3,
              if_neg (by omega : ¬(4 ≤ n ∧ n < 8)), if_neg h8, if_neg h9]
            rw [List.getElem?_drop]
            have hn : 8 + (n - 4 - 4) = n := by omega
            rw [hn]
            exact List.getElem?_set_ne (fun hh => h3 hh.symm)

theorem gzipFixedPatch_idem (x : List Nat) (h : GzipHeader)
    (hlen : 10 ≤ x.length) :
    gzipFixedPatch (gzipFixedPatch x h) h = gzipFixedPatch x h := by
  have hlen2 : 10 ≤ (gzipFixedPatch x h).length := by
    rw [gzipFixedPatch_length x h (by omega)]
    exact hlen
  apply List.ext_getElem?
  intro n
  rw [gzipFixedPatch_getElem? _ h hlen2 n, gzipFixedPatch_getElem? x h hlen n]
  split_ifs with hc1 hc2 hc3 hc4
  · rfl
  · rfl
  · rfl
  · rfl
  · rfl

/-- C2 (amended): `patch_gzip_header` is idempotent for headers whose
flag byte has none of FEXTRA / FNAME / FCOMMENT set (the patch then
rewrites only the fixed 10-byte preamble).  With one of those flags set
and a field value present, every patch re-inserts the field, so a second
patch grows the buffer again (see the counterexample). -/
theorem gzip_patch_idempotent_amended (b : List Nat) (H : GzipHeader)
    (_hmt : H.mtime < 4294967296)
    (h4 : H.flags &&& 4 = 0) (h8 : H.flags &&& 8 = 0)
    (h16 : H.flags &&& 16 = 0) :
    patch_gzip_header (patch_gzip_header b H) H = patch_gzip_header b H := by
  by_cases hlen : b.length < 10
  · unfold patch_gzip_header
    rw [if_pos hlen, if_pos hlen]
  · push_neg at hlen
    rw [patch_no_opt_eq_fixedPatch b H hlen h4 h8 h16]
    rw [patch_no_opt_eq_fixedPatch _ H
      (by rw [gzipFixedPatch_length b H (by omega)]; exact hlen) h4 h8 h16]
    exact gzipFixedPatch_idem b H hlen

/-- witness for C2's amended theorem. -/
theorem gzip_patch_idempotent_amended_witness :
    patch_gzip_header
        (patch_gzip_header [31, 139, 8, 0, 7, 0, 0, 0, 2, 3]
          ⟨123, 3, 1, none, none, none⟩)
        ⟨123, 3, 1, none, none, none⟩ =
      patch_gzip_header [31, 139, 8, 0, 7, 0, 0, 0, 2, 3]
        ⟨123, 3, 1, none, none, none⟩ :=
  gzip_patch_idempotent_amended _ _ (by decide) (by decide) (by decide) (by decide)

/-! ## C10: patch_gzip_header overwrites unconditionally -/

theorem take10_splice (l r : List Nat) (i j : Nat) (hi : 10 ≤ i)
    (hl : 10 ≤ l.length) : (splice l i j r).take 10 = l.take 10 := by
  unfold splice
  rw [List.append_assoc]
  rw [List.take_append_of_le_length (by rw [List.length_take]; omega)]
  rw [List.take_take]
  congr 1
  omega

theorem gzipExtraStep_inv (h : GzipHeader) (p : List Nat) (hlen : 10 ≤ p.length) :
    (gzipExtraStep h p).1.take 10 = p.take 10
    ∧ 10 ≤ (gzipExtraStep h p).1.length ∧ 10 ≤ (gzipExtraStep h p).2 := by
  unfold gzipExtraStep
  by_cases hf : h.flags &&& 4 ≠ 0
  · rw [if_pos hf]
    cases h.extra with
    | some e =>
      dsimp only
      refine ⟨take10_splice _ _ 10 12 (by omega) hlen, ?_, by omega⟩
      rw [splice_length]
      omega
    | none =>
      dsimp only
      refine ⟨take10_splice _ _ 10 _ (by omega) hlen, ?_, by omega⟩
      rw [splice_length]
      simp
      omega
  · rw [if_neg hf]
    exact ⟨rfl, hlen, by omega⟩

theorem gzipFnameStep_inv (h : GzipHeader) (st : List Nat × Nat)
    (hlen : 10 ≤ st.1.length) (hpos : 10 ≤ st.2) :
    (gzipFnameStep h st).1.take 10 = st.1.take 10
    ∧ 10 ≤ (gzipFnameStep h st).1.length ∧ 10 ≤ (gzipFnameStep h st).2 := by
  unfold gzipFnameStep
  by_cases hf : h.flags &&& 8 ≠ 0
  · rw [if_pos hf]
    cases h.fname with
    | some f =>
      dsimp only
      refine ⟨take10_splice _ _ st.2 st.2 hpos hlen, ?_, by omega⟩
      rw [splice_length]
      omega
    | none =>
      dsimp only
      cases hnul : findNul st.1 st.2 with
      | some e =>
        dsimp only
        have hslen : 10 ≤ (splice st.1 st.2 (e + 1) []).length := by
          rw [splice_length]
          simp
          omega
        exact ⟨take10_splice _ _ st.2 _ hpos hlen, hslen, hslen⟩
      | none =>
        dsimp only
        exact ⟨rfl, hlen, hpos⟩
  · rw [if_neg hf]
    exact ⟨rfl, hlen, hpos⟩

theorem gzipFcommentStep_take10 (h : GzipHeader) (st : List Nat × Nat)
    (hlen : 10 ≤ st.1.length) (hpos : 10 ≤ st.2) :
    (gzipFcommentStep h st).take 10 = st.1.take 10 := by
  unfold gzipFcommentStep
  by_cases hf : h.flags &&& 16 ≠ 0
  · rw [if_pos hf]
    cases h.fcomment with
    | some c =>
      dsimp only
      exact take10_splice _ _ st.2 st.2 hpos hlen
    | none =>
      dsimp only
      cases hnul : findNul st.1 st.2 with
      | some e =>
        dsimp only
        exact take10_splice _ _ st.2 _ hpos hlen
      | none => rfl
  · rw [if_neg hf]

theorem patch_take10 (b : List Nat) (h : GzipHeader) (hlen : 10 ≤ b.length) :
    (patch_gzip_header b h).take 10 = (gzipFixedPatch b h).take 10 := by
  unfold patch_gzip_header
  rw [if_neg (by omega)]
  have hfl : 10 ≤ (gzipFixedPatch b h).length := by
    rw [gzipFixedPatch_length b h (by omega)]
    exact hlen
  obtain ⟨he1, he2, he3⟩ := gzipExtraStep_inv h (gzipFixedPatch b h) hfl
  obtain ⟨hn1, hn2, hn3⟩ := gzipFnameStep_inv h _ he2 he3
  rw [gzipFcommentStep_take10 h _ hn2 hn3, hn1, he1]

theorem gzipFixedPatch_mtimeSlice (x : List Nat) (h : GzipHeader)
    (hlen : 10 ≤ x.length) :
    ((gzipFixedPatch x h).drop 4).take 4 = toBytesLE 4 h.mtime := by
  apply List.ext_getElem?
  intro n
  rw [List.getElem?_take]
  by_cases hn : n < 4
  · rw [if_pos hn, List.getElem?_drop, gzipFixedPatch_getElem? x h hlen (4 + n)]
    rw [if_neg (by omega), if_pos (by omega)]
    congr 1
    omega
  · rw [if_neg hn, Eq.comm]
    apply List.getElem?_eq_none
    rw [toBytesLE_length]
    omega

theorem slice44_of_take10 (x y : List Nat) (hxy : x.take 10 = y.take 10) :
    (x.drop 4).take 4 = (y.drop 4).take 4 := by
  have hx : ((x.take 10).drop 4).take 4 = (x.drop 4).take 4 := by
    rw [List.drop_take, List.take_take]
    norm_num
  have hy : ((y.take 10).drop 4).take 4 = (y.drop 4).take 4 := by
    rw [List.drop_take, List.take_take]
    norm_num
  rw [← hx, ← hy, hxy]

theorem getD_of_take10 (x y : List Nat) (hxy : x.take 10 = y.take 10)
    {i : Nat} (hi : i < 10) : x.getD i 0 = y.getD i 0 := by
  rw [← getD_take_of_lt x hi, ← getD_take_of_lt y hi, hxy]

theorem gzipFixedPatch_getD3 (x : List Nat) (h : GzipHeader)
    (hlen : 10 ≤ x.length) :
    (gzipFixedPatch x h).getD 3 0 = h.flags &&& 255 := by
  rw [List.getD_eq_getElem?_getD, gzipFixedPatch_getElem? x h hlen 3]
  norm_num

theorem gzipFixedPatch_getD8 (x : List Nat) (h : GzipHeader)
    (hlen : 10 ≤ x.length) : (gzipFixedPatch x h).getD 8 0 = 0 := by
  rw [List.getD_eq_getElem?_getD, gzipFixedPatch_getElem? x h hlen 8]
  norm_num

theorem gzipFixedPatch_getD9 (x : List Nat) (h : GzipHeader)
    (hlen : 10 ≤ x.length) :
    (gzipFixedPatch x h).getD 9 0 = h.os &&& 255 := by
  rw [List.getD_eq_getElem?_getD, gzipFixedPatch_getElem? x h hlen 9]
  norm_num

/-- C10: `patch_gzip_header` returns its input unchanged for every header
exactly when the buffer is shorter than 10 bytes; on any buffer of 10 or
more bytes it overwrites the flags, mtime, XFL (forced to 0) and OS
bytes without ever checking the gzip magic, so any buffer whose XFL byte
is nonzero — gzip stream or not — is rewritten (unlike bzip2 patching,
which leaves non-bzip2 input untouched, see `patch_bzip2_frame`). -/
theorem patch_gzip_unconditional_overwrite (b : List Nat) :
    ((∀ h : GzipHeader, patch_gzip_header b h = b) ↔ b.length < 10)
    ∧ (∀ h : GzipHeader, h.mtime < 4294967296 → 10 ≤ b.length →
        (patch_gzip_header b h).getD 3 0 = h.flags &&& 255
        ∧ ((patch_gzip_header b h).drop 4).take 4 = toBytesLE 4 h.mtime
        ∧ (patch_gzip_header b h).getD 8 0 = 0
        ∧ (patch_gzip_header b h).getD 9 0 = h.os &&& 255)
    ∧ (∀ h : GzipHeader, 10 ≤ b.length → b.getD 8 0 ≠ 0 →
        patch_gzip_header b h ≠ b) := by
  refine ⟨⟨?_, ?_⟩, ?_, ?_⟩
  · intro hall
    by_contra h10
    push_neg at h10
    by_cases hb9 : b.getD 9 0 = 0
    · have hpe := patch_no_opt_eq_fixedPatch b ⟨0, 1, 0, none, none, none⟩
        h10 (by decide) (by decide) (by decide)
      have heq := hall ⟨0, 1, 0, none, none, none⟩
      rw [hpe] at heq
      have h9 := gzipFixedPatch_getD9 b ⟨0, 1, 0, none, none, none⟩ h10
      rw [heq, hb9] at h9
      exact absurd h9.symm (by decide)
    · have hpe := patch_no_opt_eq_fixedPatch b ⟨0, 0, 0, none, none, none⟩
        h10 (by decide) (by decide) (by decide)
      have heq := hall ⟨0, 0, 0, none, none, none⟩
      rw [hpe] at heq
      have h9 := gzipFixedPatch_getD9 b ⟨0, 0, 0, none, none, none⟩ h10
      rw [heq] at h9
      exact hb9 (by simpa using h9)
  · intro hlt h
    unfold patch_gzip_header
    rw [if_pos hlt]
  · intro h _hmt hlen
    have ht10 := patch_take10 b h hlen
    have hfl : 10 ≤ (gzipFixedPatch b h).length := by
      rw [gzipFixedPatch_length b h (by omega)]
      exact hlen
    refine ⟨?_, ?_, ?_, ?_⟩
    · rw [getD_of_take10 _ _ ht10 (by omega)]
      exact gzipFixedPatch_getD3 b h hlen
    · rw [slice44_of_take10 _ _ ht10]
      exact gzipFixedPatch_mtimeSlice b h hlen
    · rw [getD_of_take10 _ _ ht10 (by omega)]
      exact gzipFixedPatch_getD8 b h hlen
    · rw [getD_of_take10 _ _ ht10 (by omega)]
      exact gzipFixedPatch_getD9 b h hlen
  · intro h hlen h8nz heq
    have ht10 := patch_take10 b h hlen
    have h8 : (patch_gzip_header b h).getD 8 0 = 0 := by
      rw [getD_of_take10 _ _ ht10 (by omega)]
      exact gzipFixedPatch_getD8 b h hlen
    rw [heq] at h8
    exact h8nz h8

/-- witness for C10 at concrete inputs: a non-gzip 10-byte buffer is
rewritten (flags overwritten, buffer changed), a 2-byte buffer is
returned unchanged. -/
theorem patch_gzip_unconditional_overwrite_witness :
    (patch_gzip_header [0, 1, 2, 3, 4, 5, 6, 7, 8, 9]
        ⟨258, 7, 300, none, none, none⟩).getD 3 0 = 300 &&& 255
    ∧ patch_gzip_header [0, 1, 2, 3, 4, 5, 6, 7, 8, 9]
        ⟨258, 7, 300, none, none, none⟩ ≠ [0, 1, 2, 3, 4, 5, 6, 7, 8, 9]
    ∧ patch_gzip_header [1, 2] ⟨0, 0, 0, none, none, none⟩ = [1, 2] := by
  refine ⟨((patch_gzip_unconditional_overwrite [0, 1, 2, 3, 4, 5, 6, 7, 8, 9]).2.1
    ⟨258, 7, 300, none, none, none⟩ (by decide) (by decide)).1, ?_, ?_⟩
  · exact (patch_gzip_unconditional_overwrite [0, 1, 2, 3, 4, 5, 6, 7, 8, 9]).2.2
      ⟨258, 7, 300, none, none, none⟩ (by decide) (by decide)
  · exact (patch_gzip_unconditional_overwrite [1, 2]).1.mpr (by decide)
      ⟨0, 0, 0, none, none, none⟩

/-! ## C6: parse failure conditions -/

theorem parse_bzip2_header_none_iff (bb : List Nat) :
    parse_bzip2_header bb = none ↔ bzip2ParseFail bb := by
  unfold parse_bzip2_header bzip2ParseFail
  have hlen4 : (bb.take 4).length = min 4 bb.length := List.length_take ..
  have ht3 : (bb.take 4).take 3 = bb.take 3 := by
    rw [List.take_take]
    norm_num
  by_cases h1 : (bb.take 4).length < 4 ∨ (bb.take 4).take 3 ≠ [66, 90, 104]
  · rw [if_pos h1]
    constructor
    · intro _
      rcases h1 with h1 | h1
      · exact Or.inl (by omega)
      · exact Or.inr (Or.inl (by rw [← ht3]; exact h1))
    · intro _
      rfl
  · rw [if_neg h1]
    push_neg at h1
    by_cases hb4 : bb.length < 4
    · exact absurd (by omega : (bb.take 4).length < 4) (by omega)
    · by_cases h2 : (bb.take 4).getD 3 0 < 49 ∨ 57 < (bb.take 4).getD 3 0
      · rw [if_pos h2]
        have hd3 : (bb.take 4).getD 3 0 = bb.getD 3 0 := getD_take_of_lt bb (by omega)
        rw [hd3] at h2
        constructor
        · intro _
          rcases h2 with h2 | h2
          · exact Or.inr (Or.inr (Or.inl h2))
          · exact Or.inr (Or.inr (Or.inr h2))
        · intro _
          rfl
      · rw [if_neg h2]
        have hd3 : (bb.take 4).getD 3 0 = bb.getD 3 0 := getD_take_of_lt bb (by omega)
        rw [hd3] at h2
        push_neg at h2
        constructor
        · intro hh
          exact absurd hh (by simp)
        · intro hh
          rcases hh with hh | hh | hh | hh
          · omega
          · exact absurd (by rw [← ht3]; exact h1.2 : bb.take 3 = [66, 90, 104]) hh
          · omega
          · omega

theorem parse_gzip_header_none_iff (bg : List Nat) :
    parse_gzip_header bg = none ↔ gzipParseFail bg := by
  unfold parse_gzip_header gzipParseFail
  have hlen256 : (bg.take 256).length = min 256 bg.length := List.length_take ..
  have ht2 : (bg.take 256).take 2 = bg.take 2 := by
    rw [List.take_take]
    norm_num
  by_cases h1 : (bg.take 256).length < 10 ∨ (bg.take 256).take 2 ≠ [31, 139]
  · rw [if_pos h1]
    constructor
    · intro _
      rcases h1 with h1 | h1
      · exact Or.inl (by omega)
      · exact Or.inr (Or.inl (by rw [← ht2]; exact h1))
    · intro _
      rfl
  · rw [if_neg h1]
    push_neg at h1
    have hnotshort : ¬ bg.length < 10 := by omega
    have hnotmagic : ¬ bg.take 2 ≠ [31, 139] := by
      rw [← ht2]
      simpa using h1.2
    by_cases h2 : (bg.take 256).getD 2 0 ≠ 8
    · rw [if_pos h2]
      constructor
      · intro _
        exact Or.inr (Or.inr (Or.inl h2))
      · intro _
        rfl
    · rw [if_neg h2]
      have hep2 : (if (bg.take 256).getD 3 0 &&& 4 ≠ 0 then
          ((some (((bg.take 256).drop 12).take
              (fromBytesLE (((bg.take 256).drop 10).take 2))) : Option (List Nat)),
            12 + fromBytesLE (((bg.take 256).drop 10).take 2))
          else ((none : Option (List Nat)), 10)).2 = gzipNulScanStart (bg.take 256) := by
        unfold gzipNulScanStart
        split_ifs <;> rfl
      simp only [ne_eq]
      simp only [ne_eq] at hep2
      rw [hep2]
      have h2eq : (List.take 256 bg).getD 2 0 = 8 := not_not.mp h2
      have hmageq : bg.take 2 = [31, 139] := not_not.mp hnotmagic
      by_cases hf8 : (List.take 256 bg).getD 3 0 &&& 8 = 0
      · rw [if_neg (fun hh => hh hf8)]
        dsimp only
        by_cases hf16 : (List.take 256 bg).getD 3 0 &&& 16 = 0
        · rw [if_neg (fun hh => hh hf16)]
          dsimp only
          constructor
          · intro hh
            simp at hh
          · intro hh
            rcases hh with hh | hh | hh | ⟨hh, -⟩ | ⟨hh, -⟩
            · exact absurd hh hnotshort
            · exact absurd hmageq hh
            · exact absurd h2eq hh
            · exact absurd hf8 hh
            · exact absurd hf16 hh
        · rw [if_pos hf16]
          unfold parseCString
          cases hnul2 : findNul (List.take 256 bg) (gzipNulScanStart (List.take 256 bg)) with
          | none =>
            dsimp only [Option.map]
            constructor
            · intro _
              refine Or.inr (Or.inr (Or.inr (Or.inr
                ⟨hf16, gzipNulScanStart (List.take 256 bg), ?_, hnul2⟩)))
              unfold gzipFnamePos
              rw [if_neg (fun hh => hh hf8)]
            · intro _
              rfl
          | some e =>
            dsimp only [Option.map]
            constructor
            · intro hh
              simp at hh
            · intro hh
              rcases hh with hh | hh | hh | ⟨hh, -⟩ | ⟨-, p, hp, hpn⟩
              · exact absurd hh hnotshort
              · exact absurd hmageq hh
              · exact absurd h2eq hh
              · exact absurd hf8 hh
              · unfold gzipFnamePos at hp
                rw [if_neg (fun hh => hh hf8), Option.some.injEq] at hp
                rw [← hp, hnul2] at hpn
                exact absurd hpn (by simp)
      · rw [if_pos hf8]
        unfold parseCString
        cases hnul : findNul (List.take 256 bg) (gzipNulScanStart (List.take 256 bg)) with
        | none =>
          dsimp only [Option.map]
          constructor
          · intro _
            exact Or.inr (Or.inr (Or.inr (Or.inl ⟨hf8, rfl⟩)))
          · intro _
            rfl
        | some e =>
          dsimp only [Option.map]
          by_cases hf16 : (List.take 256 bg).getD 3 0 &&& 16 = 0
          · rw [if_neg (fun hh => hh hf16)]
            dsimp only
            constructor
            · intro hh
              simp at hh
            · intro hh
              rcases hh with hh | hh | hh | ⟨-, hn⟩ | ⟨hh, -⟩
              · exact absurd hh hnotshort
              · exact absurd hmageq hh
              · exact absurd h2eq hh
              · exact absurd hn (by simp)
              · exact absurd hf16 hh
          · rw [if_pos hf16]
            cases hnul2 : findNul (List.take 256 bg) (e + 1) with
            | none =>
              dsimp only [Option.map]
              constructor
              · intro _
                refine Or.inr (Or.inr (Or.inr (Or.inr ⟨hf16, e + 1, ?_, hnul2⟩)))
                unfold gzipFnamePos
                rw [if_pos hf8, hnul]
                rfl
              · intro _
                rfl
            | some e2 =>
              dsimp only [Option.map]
              constructor
              · intro hh
                simp at hh
              · intro hh
                rcases hh with hh | hh | hh | ⟨-, hn⟩ | ⟨-, p, hp, hpn⟩
                · exact absurd hh hnotshort
                · exact absurd hmageq hh
                · exact absurd h2eq hh
                · exact absurd hn (by simp)
                · unfold gzipFnamePos at hp
                  rw [if_pos hf8, hnul] at hp
                  simp at hp
                  rw [← hp, hnul2] at hpn
                  exact absurd hpn (by simp)

/-- C6: header parsing is total (returns an `Option`, never raises) and
returns `none` exactly when: for gzip, fewer than 10 header bytes, bad
magic, method ≠ 8, or a flagged FNAME / FCOMMENT field with no NUL
terminator within the 256 bytes read; for bzip2, fewer than 4 bytes, bad
`BZh` magic, or a level digit outside `'1'..'9'`; otherwise a header is
returned. -/
theorem parse_header_failure_conditions (bg bb : List Nat) :
    (parse_gzip_header bg = none ↔ gzipParseFail bg)
    ∧ (parse_bzip2_header bb = none ↔ bzip2ParseFail bb) :=
  ⟨parse_gzip_header_none_iff bg, parse_bzip2_header_none_iff bb⟩
